import Mathlib

/-!
Verification of the incremental backup tool (`floder.py`).

The source file is shallowly embedded below.  Filesystem trees are finite
association lists: a `Tree` is the content of one directory subtree (its
directories and files, both addressed by their relative path), and a `Dest`
is the destination root (its immediate subdirectories, each with its tree,
plus its `.zip` files).  Modification times are naturals, file contents are
byte lists, `st_size` is the content length.  Python's `str.startswith` and
string ordering are modelled on the character list (`String.data`), which is
exactly how CPython compares strings.
-/

namespace Floder

/-- A file as the tool observes it: `st_mtime`, and the byte content
(`st_size` is the length of the content; `shutil.copy2` preserves both the
content and the mtime, so copying is the identity on this record). -/
structure File where
  mtime : Nat
  content : List Nat
deriving DecidableEq, Repr

/-- `st_size` of a file: the length of its byte content. -/
def File.size (f : File) : Nat := f.content.length

/-- A path relative to some directory root, as a list of components. -/
abbrev RelPath := List String

/-- The content of one directory subtree: the set of directories below the
root (the root itself is `[]`) and the files, each keyed by relative path. -/
structure Tree where
  dirs : List RelPath
  files : List (RelPath × File)
deriving DecidableEq, Repr

/-- The empty tree (an absent or just-created directory). -/
def Tree.empty : Tree := { dirs := [], files := [] }

/-- Look a file up by relative path; `none` models `Path.exists()` false. -/
def lookupFile (t : Tree) (p : RelPath) : Option File :=
  (t.files.find? (fun e => decide (e.1 = p))).map Prod.snd

/-- `file_changed(src_file, dest_file)` (floder.py:29-33): true when the
reference file is absent, otherwise true when the source mtime is strictly
newer or the sizes differ. -/
def file_changed (src_file : File) (dest_file : Option File) : Bool :=
  match dest_file with
  | none => true
  | some d => decide (src_file.mtime > d.mtime) || decide (src_file.size ≠ d.size)

/-- The copy decision of the walk loop (floder.py:64-69): when no previous
backup exists `prev_file is None` and the file is copied unconditionally;
otherwise `file_changed` is consulted against the file at the same relative
path inside the previous backup. -/
def shouldCopy (previous_backup : Option Tree) (rel : RelPath) (src : File) : Bool :=
  match previous_backup with
  | none => true
  | some prev => file_changed src (lookupFile prev rel)

/-- The reference file the Change Detector compares against, as an optional
file: `none` when the reference snapshot is absent or has no file at `rel`. -/
def refLookup (previous_backup : Option Tree) (rel : RelPath) : Option File :=
  match previous_backup with
  | none => none
  | some prev => lookupFile prev rel

/-- The files the walk copies into the new snapshot, in walk order
(floder.py:59-73; `shutil.copy2` preserves content and mtime). -/
def copiedList (prev : Option Tree) (files : List (RelPath × File)) :
    List (RelPath × File) :=
  files.filter (fun e => shouldCopy prev e.1 e.2)

/-- `skipped_files` after the walk (floder.py:74-75). -/
def skippedCountL (prev : Option Tree) (files : List (RelPath × File)) : Nat :=
  (files.filter (fun e => !(shouldCopy prev e.1 e.2))).length

/-- The snapshot directory materialised by the walk: every source directory
is mirrored eagerly (floder.py:52-57), and exactly the changed files are
copied (floder.py:69-73). -/
def buildSnapshot (source : Tree) (prev : Option Tree) : Tree :=
  { dirs := source.dirs, files := copiedList prev source.files }

/-- The destination root: its immediate subdirectories (snapshots and
`latest`), each with the tree it holds, and its `.zip` files. -/
structure Dest where
  dirs : List (String × Tree)
  zipFiles : List (String × List (RelPath × List Nat))
deriving DecidableEq, Repr

/-- Look an immediate subdirectory of the destination root up by name;
`none` models a missing directory. -/
def getDir (d : Dest) (name : String) : Option Tree :=
  (d.dirs.find? (fun e => decide (e.1 = name))).map Prod.snd

/-- The result `incremental_backup` hands to its caller, together with the
destination state it leaves behind. -/
structure BackupOut where
  destAfter : Dest
  backup_name : String
  copied : Nat
  skipped : Nat
deriving Repr

/-- `incremental_backup` (floder.py:36-90): the snapshot directory is
`backup_<timestamp>`; the reference is `latest` when it exists; the walk
builds the new snapshot and counts copies and skips; afterwards (non-dry-run
only) any existing `latest` is removed and recreated as a full copy of the
just-built snapshot (floder.py:81-88). -/
def incremental_backup (source : Tree) (dest : Dest) (timestamp : String)
    (dry_run : Bool) : BackupOut :=
  let backup_name := "backup_" ++ timestamp
  let previous_backup := getDir dest "latest"
  let snap := buildSnapshot source previous_backup
  let destAfter :=
    if dry_run then dest
    else
      { dest with dirs :=
          ((dest.dirs ++ [(backup_name, snap)]).filter
              (fun e => decide (e.1 ≠ "latest")))
            ++ [("latest", snap)] }
  { destAfter := destAfter, backup_name := backup_name,
    copied := (copiedList previous_backup source.files).length,
    skipped := skippedCountL previous_backup source.files }

/-- The archive produced from a snapshot tree (floder.py:100-104): one entry
per file, named by the file's path relative to the snapshot directory (no
leading snapshot-name component), holding the file's bytes. -/
def zipOf (snap : Tree) : List (RelPath × List Nat) :=
  snap.files.map (fun e => (e.1, e.2.content))

/-- `compress_backup` (floder.py:93-106): computes `zip_name` by appending
`.zip` to the snapshot path, returns early on dry-run, otherwise walks the
snapshot directory as found on disk (an absent directory walks as empty) and
writes the archive.  The Python function has no `return` with a value on any
path, so the first component — its return value — is always `none`. -/
def compress_backup (dest : Dest) (backup_name : String) (dry_run : Bool) :
    Option String × Dest :=
  let zip_name := backup_name ++ ".zip"
  if dry_run then (none, dest)
  else
    let snap := (getDir dest backup_name).getD Tree.empty
    (none, { dest with zipFiles := dest.zipFiles ++ [(zip_name, zipOf snap)] })

/-- Python's `name.startswith(pre)` on the underlying character sequence. -/
def pyStartswith (s pre : String) : Bool := pre.data.isPrefixOf s.data

/-- Python's `<=` on strings: lexicographic comparison of the character
sequences by code point (CPython compares strings exactly this way). -/
def lexLeB : List Char → List Char → Bool
  | [], _ => true
  | _ :: _, [] => false
  | a :: as, b :: bs =>
    if a < b then true
    else if b < a then false
    else lexLeB as bs

/-- Python's `<=` on strings, lifted to `String`; `sorted` in floder.py:111
orders the snapshot names by this relation. -/
def pyLe (a b : String) : Prop := lexLeB a.data b.data = true

instance : DecidableRel pyLe :=
  fun a b => instDecidableEqBool (lexLeB a.data b.data) true

/-- The snapshot directories rotation considers (floder.py:111): immediate
subdirectories of the destination whose name starts with `backup_`. -/
def backupNames (dest : Dest) : List String :=
  (dest.dirs.map Prod.fst).filter (fun n => pyStartswith n "backup_")

/-- `backups[:-keep]` guarded by `len(backups) <= keep` (floder.py:113-117).
With `keep = 0` the Python slice `[:-0]` is `[:0]`, the empty list, so a
zero keep removes nothing. -/
def rotateRemoveList (backups : List String) (keep : Nat) : List String :=
  if backups.length ≤ keep then []
  else if keep = 0 then []
  else backups.take (backups.length - keep)

/-- `rotate_backups` (floder.py:109-128): sorts the `backup_*` directory
names, selects all but the newest `keep` for removal, and (non-dry-run only)
removes each selected directory together with its co-located `.zip` file
when that file exists.  The second component is the removal decision, which
is computed (and logged) in both modes. -/
def rotate_backups (dest : Dest) (keep : Nat) (dry_run : Bool) :
    Dest × List String :=
  let backups := List.insertionSort pyLe (backupNames dest)
  let remove_list := rotateRemoveList backups keep
  let destAfter :=
    if dry_run then dest
    else
      { dirs := dest.dirs.filter (fun e => decide (e.1 ∉ remove_list)),
        zipFiles := dest.zipFiles.filter
          (fun e => decide (e.1 ∉ remove_list.map (fun n => n ++ ".zip"))) }
  (destAfter, remove_list)

/-- The per-run report the pipeline produces, with the final destination
state. -/
structure PipeOut where
  destAfter : Dest
  backup_name : String
  copied : Nat
  skipped : Nat
  removed : List String
deriving Repr

/-- The pipeline of `main` after its preconditions (floder.py:153-158):
incremental backup, then optional compression, then rotation. -/
def pipeline (source : Tree) (dest : Dest) (timestamp : String)
    (do_zip : Bool) (keep : Nat) (dry_run : Bool) : PipeOut :=
  let b := incremental_backup source dest timestamp dry_run
  let dest2 :=
    if do_zip then (compress_backup b.destAfter b.backup_name dry_run).2
    else b.destAfter
  let r := rotate_backups dest2 keep dry_run
  { destAfter := r.1, backup_name := b.backup_name, copied := b.copied,
    skipped := b.skipped, removed := r.2 }

/-- The world `main` acts on: whether the destination root directory exists,
and its content. -/
structure World where
  destRootExists : Bool
  dest : Dest
deriving Repr

/-- `main` (floder.py:131-160) after argument parsing: when the source tree
does not exist (`srcOpt = none`) it logs an error and returns before
creating the destination root and before any pipeline step; otherwise it
creates the destination root and runs the pipeline. -/
def main_run (srcOpt : Option Tree) (w : World) (timestamp : String)
    (do_zip : Bool) (keep : Nat) (dry_run : Bool) : World × Option PipeOut :=
  match srcOpt with
  | none => (w, none)
  | some source =>
    let out := pipeline source w.dest timestamp do_zip keep dry_run
    ({ destRootExists := true, dest := out.destAfter }, some out)

/-- The copy loop of the walk (floder.py:59-75) with a fallible copy
operation: `fails rel = true` means `shutil.copy2` raises for the file at
`rel`.  The loop body has no exception handler, so a raised exception
propagates out of the loop; the accumulator holds
`(copied_files, skipped_files)`. -/
def copyWalk (prev : Option Tree) (fails : RelPath → Bool) :
    List (RelPath × File) → Nat × Nat → Except RelPath (Nat × Nat)
  | [], acc => .ok acc
  | e :: rest, (c, s) =>
    if shouldCopy prev e.1 e.2 then
      if fails e.1 then .error e.1
      else copyWalk prev fails rest (c + 1, s)
    else copyWalk prev fails rest (c, s + 1)

/-- Example source tree: files `a` (1 byte) and `b` (2 bytes) at the root. -/
def srcEx : Tree := { dirs := [[]], files := [(["a"], ⟨5, [1]⟩), (["b"], ⟨5, [2, 2]⟩)] }

/-- Example reference snapshot holding only `a`, byte- and mtime-identical
to the source's `a`. -/
def latEx : Tree := { dirs := [[]], files := [(["a"], ⟨5, [1]⟩)] }

/-- Example destination whose `latest` stems from an earlier
incremental run and therefore holds only `a`. -/
def destEx : Dest := { dirs := [("latest", latEx)], zipFiles := [] }

/-- Example destination with three snapshots, two archives and `latest`. -/
def destRot : Dest :=
  { dirs := [("backup_a", latEx), ("backup_b", latEx), ("backup_c", latEx),
      ("latest", latEx)],
    zipFiles := [("backup_a.zip", [([], [0])]), ("backup_c.zip", [])] }

/-- Example destination holding exactly one snapshot plus `latest`. -/
def destOne : Dest :=
  { dirs := [("backup_a", latEx), ("latest", latEx)], zipFiles := [] }

/-- Example walk input for the fallible-copy loop. -/
def exFiles : List (RelPath × File) :=
  [(["a"], ⟨1, [1]⟩), (["b"], ⟨1, [2]⟩), (["c"], ⟨1, [3]⟩)]

/-- Example failure pattern: copying `b` raises, every other copy works. -/
def exFails : RelPath → Bool := fun p => decide (p = ["b"])

end Floder

namespace Floder

theorem lexLeB_total : ∀ as bs : List Char, lexLeB as bs = true ∨ lexLeB bs as = true
  | [], _ => Or.inl rfl
  | _ :: _, [] => Or.inr rfl
  | a :: as, b :: bs => by
    rcases lt_trichotomy a b with h | h | h
    · left; simp [lexLeB, h]
    · subst h
      rcases lexLeB_total as bs with ih | ih
      · left; simp [lexLeB, lt_irrefl, ih]
      · right; simp [lexLeB, lt_irrefl, ih]
    · right; simp [lexLeB, h]

theorem lexLeB_trans : ∀ as bs cs : List Char,
    lexLeB as bs = true → lexLeB bs cs = true → lexLeB as cs = true
  | [], _, _ => by intro _ _; rfl
  | _ :: _, [], _ => by intro h _; exact absurd h (by simp [lexLeB])
  | _ :: _, _ :: _, [] => by intro _ h; exact absurd h (by simp [lexLeB])
  | a :: as, b :: bs, c :: cs => by
    intro h1 h2
    rcases lt_trichotomy a b with hab | hab | hab
    · rcases lt_trichotomy b c with hbc | hbc | hbc
      · simp [lexLeB, lt_trans hab hbc]
      · subst hbc; simp [lexLeB, hab]
      · exact absurd h2 (by simp [lexLeB, hbc, lt_asymm hbc])
    · subst hab
      simp only [lexLeB, lt_irrefl, if_false] at h1
      rcases lt_trichotomy a c with hac | hac | hac
      · simp [lexLeB, hac]
      · subst hac
        simp only [lexLeB, lt_irrefl, if_false] at h2 ⊢
        exact lexLeB_trans as bs cs h1 h2
      · exact absurd h2 (by simp [lexLeB, hac, lt_asymm hac])
    · exact absurd h1 (by simp [lexLeB, hab, lt_asymm hab])

theorem lexLeB_antisymm : ∀ as bs : List Char,
    lexLeB as bs = true → lexLeB bs as = true → as = bs
  | [], [] => by intro _ _; rfl
  | [], _ :: _ => by intro _ h; exact absurd h (by simp [lexLeB])
  | _ :: _, [] => by intro h _; exact absurd h (by simp [lexLeB])
  | a :: as, b :: bs => by
    intro h1 h2
    rcases lt_trichotomy a b with hab | hab | hab
    · exact absurd h2 (by simp [lexLeB, hab, lt_asymm hab])
    · subst hab
      simp only [lexLeB, lt_irrefl, if_false] at h1 h2
      rw [lexLeB_antisymm as bs h1 h2]
    · exact absurd h1 (by simp [lexLeB, hab, lt_asymm hab])

instance : IsTotal String pyLe := ⟨fun a b => lexLeB_total a.data b.data⟩

instance : IsTrans String pyLe := ⟨fun a b c => lexLeB_trans a.data b.data c.data⟩

theorem pyLe_antisymm {a b : String} (h1 : pyLe a b) (h2 : pyLe b a) : a = b := by
  have h := lexLeB_antisymm a.data b.data h1 h2
  cases a with
  | mk da => cases b with
    | mk db => exact congrArg String.mk (by simpa using h)

theorem find?_filter_of_imp {α : Type} (l : List α) (p q : α → Bool)
    (h : ∀ e, q e = true → p e = true) :
    (l.filter p).find? q = l.find? q := by
  induction l with
  | nil => rfl
  | cons a t ih =>
    by_cases hq : q a = true
    · have hp := h a hq
      simp [List.filter_cons, hp, List.find?_cons, hq]
    · have hq' : q a = false := by simpa using hq
      by_cases hp : p a = true
      · simp [List.filter_cons, hp, List.find?_cons, hq', ih]
      · have hp' : p a = false := by simpa using hp
        simp [List.filter_cons, hp', List.find?_cons, hq', ih]

/-- After a non-dry-run `incremental_backup`, `latest` holds exactly the
just-built snapshot (floder.py:81-88). -/
theorem find?_latest_filter_none (l : List (String × Tree)) :
    (l.filter (fun e => decide (e.1 ≠ "latest"))).find?
      (fun e => decide (e.1 = "latest")) = none := by
  rw [List.find?_eq_none]
  intro x hx
  rw [List.mem_filter] at hx
  simpa using hx.2

theorem getDir_incremental_latest (source : Tree) (dest : Dest) (ts : String) :
    getDir (incremental_backup source dest ts false).destAfter "latest"
      = some (buildSnapshot source (getDir dest "latest")) := by
  unfold incremental_backup getDir
  simp only [Bool.false_eq_true, if_false, List.find?_append,
    find?_latest_filter_none]
  simp [List.find?]

/-- Every name rotation selects for removal is one of the `backup_*`
directory names of the destination. -/
theorem rotate_remove_subset (dest : Dest) (keep : Nat) (dry : Bool) :
    ∀ x ∈ (rotate_backups dest keep dry).2, x ∈ backupNames dest := by
  intro x hx
  unfold rotate_backups at hx
  simp only at hx
  have h1 : x ∈ List.insertionSort pyLe (backupNames dest) := by
    unfold rotateRemoveList at hx
    split at hx
    · simp at hx
    · split at hx
      · simp at hx
      · exact List.take_subset _ _ hx
  exact (List.perm_insertionSort pyLe (backupNames dest)).mem_iff.mp h1

theorem backupNames_startswith (dest : Dest) :
    ∀ x ∈ backupNames dest, pyStartswith x "backup_" = true := by
  intro x hx
  unfold backupNames at hx
  rw [List.mem_filter] at hx
  exact hx.2

/-- Rotation never selects `latest`: it does not carry the `backup_` name
stem (floder.py:111). -/
theorem latest_not_in_remove (dest : Dest) (keep : Nat) (dry : Bool) :
    "latest" ∉ (rotate_backups dest keep dry).2 := by
  intro h
  have h1 := backupNames_startswith dest _ (rotate_remove_subset dest keep dry _ h)
  revert h1
  decide

/-- A destination subdirectory whose name rotation did not select is left in
place with its tree unchanged. -/
theorem getDir_rotate (dest : Dest) (keep : Nat) (dry : Bool) (name : String)
    (h : name ∉ (rotate_backups dest keep dry).2) :
    getDir (rotate_backups dest keep dry).1 name = getDir dest name := by
  unfold rotate_backups at h ⊢
  simp only at h ⊢
  cases dry with
  | true => simp [getDir]
  | false =>
    simp only [Bool.false_eq_true, if_false]
    unfold getDir
    simp only
    rw [find?_filter_of_imp]
    intro e he
    have : e.1 = name := by simpa using he
    subst this
    simpa using h

theorem compress_dirs (dest : Dest) (b : String) (d : Bool) :
    (compress_backup dest b d).2.dirs = dest.dirs := by
  unfold compress_backup
  cases d <;> simp

theorem getDir_compress (dest : Dest) (b : String) (d : Bool) (name : String) :
    getDir (compress_backup dest b d).2 name = getDir dest name := by
  unfold getDir
  rw [compress_dirs]

/-- After any successful non-dry pipeline run, `latest` holds exactly the
snapshot built during that run, whatever the archive flag and retention
count were. -/
theorem pipeline_latest (source : Tree) (dest : Dest) (ts : String)
    (z : Bool) (keep : Nat) :
    getDir (pipeline source dest ts z keep false).destAfter "latest"
      = some (buildSnapshot source (getDir dest "latest")) := by
  unfold pipeline
  simp only
  rw [getDir_rotate _ _ _ _ (latest_not_in_remove _ _ _)]
  cases z with
  | true =>
    simp only [if_true]
    rw [getDir_compress]
    exact getDir_incremental_latest source dest ts
  | false =>
    simp only [Bool.false_eq_true, if_false]
    exact getDir_incremental_latest source dest ts

/-- C1: combined with the caller's handling of an absent reference snapshot,
the Change Detector decides to copy exactly when the reference file is
absent, or the source mtime is strictly newer than the reference's, or the
sizes differ. -/
theorem change_detector_spec (prev : Option Tree) (rel : RelPath) (src : File) :
    shouldCopy prev rel src = true ↔
      (refLookup prev rel = none ∨
        ∃ d, refLookup prev rel = some d ∧ (src.mtime > d.mtime ∨ src.size ≠ d.size)) := by
  cases prev with
  | none => simp [shouldCopy, refLookup]
  | some t =>
    cases h : lookupFile t rel with
    | none => simp [shouldCopy, refLookup, file_changed, h]
    | some d => simp [shouldCopy, refLookup, file_changed, h]

theorem lexLeB_refl : ∀ as : List Char, lexLeB as as = true
  | [] => rfl
  | a :: as => by simp [lexLeB, lt_irrefl, lexLeB_refl as]

theorem pyLe_refl (a : String) : pyLe a a := lexLeB_refl a.data

/-- The copy count the pipeline reports is a function of the source tree and
of the `latest` directory alone: `latest` is the sole reference consulted. -/
theorem pipeline_copied (source : Tree) (dest : Dest) (ts : String)
    (z : Bool) (keep : Nat) (d : Bool) :
    (pipeline source dest ts z keep d).copied
      = (copiedList (getDir dest "latest") source.files).length := rfl

theorem pipeline_skipped (source : Tree) (dest : Dest) (ts : String)
    (z : Bool) (keep : Nat) (d : Bool) :
    (pipeline source dest ts z keep d).skipped
      = skippedCountL (getDir dest "latest") source.files := rfl

theorem pipeline_backup_name (source : Tree) (dest : Dest) (ts : String)
    (z : Bool) (keep : Nat) (d : Bool) :
    (pipeline source dest ts z keep d).backup_name = "backup_" ++ ts := rfl

theorem eq_of_nodup_keys {α β : Type} : ∀ l : List (α × β),
    (l.map Prod.fst).Nodup → ∀ {a : α} {b c : β},
    (a, b) ∈ l → (a, c) ∈ l → b = c
  | [], _, _, _, _, hb, _ => absurd hb (List.not_mem_nil _)
  | x :: t, hnd, a, b, c, hb, hc => by
    rw [List.map_cons, List.nodup_cons] at hnd
    cases hb with
    | head =>
      cases hc with
      | head => rfl
      | tail _ hc' =>
        exact absurd (List.mem_map.mpr ⟨(a, c), hc', rfl⟩) hnd.1
    | tail _ hb' =>
      cases hc with
      | head => exact absurd (List.mem_map.mpr ⟨(a, b), hb', rfl⟩) hnd.1
      | tail _ hc' => exact eq_of_nodup_keys t hnd.2 hb' hc'

theorem find?_key_eq {β : Type} : ∀ l : List (RelPath × β),
    (l.map Prod.fst).Nodup → ∀ {p : RelPath} {b : β}, (p, b) ∈ l →
    l.find? (fun e => decide (e.1 = p)) = some (p, b)
  | [], _, _, _, hm => absurd hm (List.not_mem_nil _)
  | x :: t, hnd, p, b, hm => by
    rw [List.map_cons, List.nodup_cons] at hnd
    cases hm with
    | head => simp [List.find?_cons]
    | tail _ hm' =>
      have hx : ¬ x.1 = p := by
        intro hh
        exact hnd.1 (hh ▸ List.mem_map.mpr ⟨(p, b), hm', rfl⟩)
      simp [List.find?_cons, hx, find?_key_eq t hnd.2 hm']

theorem lookupFile_eq_of_mem {t : Tree} (hnd : (t.files.map Prod.fst).Nodup)
    {p : RelPath} {f : File} (hm : (p, f) ∈ t.files) :
    lookupFile t p = some f := by
  unfold lookupFile
  rw [find?_key_eq t.files hnd hm]
  rfl

/-- A file considered unchanged is skipped: the snapshot directory built by
the walk has no file at its relative path (only the parent directories). -/
theorem lookup_buildSnapshot_none {source : Tree} {prev : Option Tree}
    {p : RelPath} {f : File} (hnd : (source.files.map Prod.fst).Nodup)
    (hm : (p, f) ∈ source.files) (hc : shouldCopy prev p f = false) :
    lookupFile (buildSnapshot source prev) p = none := by
  have h : ((buildSnapshot source prev).files.find?
      (fun e => decide (e.1 = p))) = none := by
    rw [List.find?_eq_none]
    intro e he
    simp only [buildSnapshot, copiedList] at he
    rw [List.mem_filter] at he
    simp only [decide_eq_true_eq]
    intro hep
    obtain ⟨q, g⟩ := e
    simp only at hep
    subst hep
    have hgf : g = f := eq_of_nodup_keys source.files hnd he.1 hm
    subst hgf
    rw [hc] at he
    exact absurd he.2 (by simp)
  unfold lookupFile
  rw [h]
  rfl

/-- Copying everything: with no reference snapshot every file is copied and
the snapshot mirrors the full source file list. -/
theorem copiedList_none (files : List (RelPath × File)) :
    copiedList none files = files := by
  unfold copiedList
  rw [List.filter_eq_self.mpr]
  intro e _
  rfl

theorem startswith_backup (ts : String) :
    pyStartswith ("backup_" ++ ts) "backup_" = true := by
  unfold pyStartswith
  rw [String.data_append]
  simp

theorem backup_name_ne_latest (ts : String) : ("backup_" ++ ts) ≠ "latest" := by
  intro h
  have h1 := startswith_backup ts
  rw [h] at h1
  exact absurd h1 (by decide)

/-- The directory entries of the destination right after a non-dry
`incremental_backup`: the old entries minus `latest`, then the new snapshot,
then the rebuilt `latest`. -/
theorem dirs_incremental (source : Tree) (dest : Dest) (ts : String) :
    (incremental_backup source dest ts false).destAfter.dirs
      = (dest.dirs.filter (fun e => decide (e.1 ≠ "latest")))
        ++ [("backup_" ++ ts, buildSnapshot source (getDir dest "latest"))]
        ++ [("latest", buildSnapshot source (getDir dest "latest"))] := by
  unfold incremental_backup
  simp only [Bool.false_eq_true, if_false]
  rw [List.filter_append]
  simp [backup_name_ne_latest ts]

theorem getDir_incremental_new (source : Tree) (dest : Dest) (ts : String)
    (hfresh : ("backup_" ++ ts) ∉ dest.dirs.map Prod.fst) :
    getDir (incremental_backup source dest ts false).destAfter ("backup_" ++ ts)
      = some (buildSnapshot source (getDir dest "latest")) := by
  unfold getDir
  rw [dirs_incremental, List.find?_append, List.find?_append]
  have h1 : (dest.dirs.filter (fun e => decide (e.1 ≠ "latest"))).find?
      (fun e => decide (e.1 = "backup_" ++ ts)) = none := by
    rw [List.find?_eq_none]
    intro e he
    rw [List.mem_filter] at he
    simp only [decide_eq_true_eq]
    intro hh
    exact hfresh (hh ▸ List.mem_map.mpr ⟨e, he.1, rfl⟩)
  rw [h1]
  simp [List.find?]
  rfl

theorem backupNames_subset_names (dest : Dest) :
    ∀ n ∈ backupNames dest, n ∈ dest.dirs.map Prod.fst := by
  intro n hn
  unfold backupNames at hn
  exact (List.mem_filter.mp hn).1

/-- The `backup_*` names right after a non-dry `incremental_backup`: the old
ones (in order) with the fresh snapshot name appended. -/
theorem backupNames_after_incremental (source : Tree) (dest : Dest) (ts : String)
    (hfresh : ("backup_" ++ ts) ∉ dest.dirs.map Prod.fst) :
    ∃ F, backupNames (incremental_backup source dest ts false).destAfter
        = F ++ ["backup_" ++ ts]
      ∧ ("backup_" ++ ts) ∉ F
      ∧ ∀ n ∈ F, n ∈ backupNames dest := by
  refine ⟨((dest.dirs.filter (fun e => decide (e.1 ≠ "latest"))).map
      Prod.fst).filter (fun n => pyStartswith n "backup_"), ?_, ?_, ?_⟩
  · unfold backupNames
    rw [dirs_incremental, List.map_append, List.map_append,
      List.filter_append, List.filter_append]
    have hl : pyStartswith "latest" "backup_" = false := by decide
    simp [startswith_backup ts, hl]
  · intro hmem
    rw [List.mem_filter] at hmem
    obtain ⟨e, he, hee⟩ := List.mem_map.mp hmem.1
    rw [List.mem_filter] at he
    exact hfresh (hee ▸ List.mem_map.mpr ⟨e, he.1, rfl⟩)
  · intro n hn
    rw [List.mem_filter] at hn
    obtain ⟨e, he, hee⟩ := List.mem_map.mp hn.1
    rw [List.mem_filter] at he
    unfold backupNames
    rw [List.mem_filter]
    exact ⟨hee ▸ List.mem_map.mpr ⟨e, he.1, rfl⟩, hn.2⟩

theorem backupNames_compress (dest : Dest) (b : String) (d : Bool) :
    backupNames (compress_backup dest b d).2 = backupNames dest := by
  unfold backupNames
  rw [compress_dirs]

/-- A sorted list in which `x` is a strict maximum occurring once ends in
`x`. -/
theorem sorted_strictMax_ends : ∀ S : List String, List.Sorted pyLe S →
    ∀ x, x ∈ S → (∀ y ∈ S, y = x ∨ (pyLe y x ∧ y ≠ x)) → S.count x = 1 →
    ∃ S', S = S' ++ [x] ∧ x ∉ S'
  | [], _, x, hx, _, _ => absurd hx (List.not_mem_nil x)
  | a :: t, hs, x, hx, hmax, hcount => by
    rw [List.sorted_cons] at hs
    cases t with
    | nil =>
      rcases List.mem_singleton.mp hx with rfl
      exact ⟨[], rfl, List.not_mem_nil x⟩
    | cons b t' =>
      have hax : a ≠ x := by
        intro hax
        have hxt : x ∉ b :: t' := by
          rw [← List.count_eq_zero]
          rw [List.count_cons] at hcount
          have hbeq : (a == x) = true := by simpa using hax
          rw [hbeq, if_pos rfl] at hcount
          omega
        rcases hmax b (by simp) with hb1 | ⟨hble, hbne⟩
        · exact hxt (hb1 ▸ List.mem_cons_self b t')
        · have hxb : pyLe x b := by rw [← hax]; exact hs.1 b (by simp)
          exact hbne (pyLe_antisymm hble hxb)
      have hxt : x ∈ b :: t' := by
        rcases List.mem_cons.mp hx with h | h
        · exact absurd h.symm hax
        · exact h
      have hmax' : ∀ y ∈ b :: t', y = x ∨ (pyLe y x ∧ y ≠ x) :=
        fun y hy => hmax y (List.mem_cons_of_mem a hy)
      have hcount' : (b :: t').count x = 1 := by
        rw [List.count_cons] at hcount
        have hbeq : (a == x) = false := by simpa using hax
        rw [hbeq] at hcount
        simpa using hcount
      obtain ⟨S', hS', hxS'⟩ :=
        sorted_strictMax_ends (b :: t') hs.2 x hxt hmax' hcount'
      refine ⟨a :: S', by rw [List.cons_append, hS'], ?_⟩
      intro hmem
      rcases List.mem_cons.mp hmem with rfl | h
      · exact hax rfl
      · exact hxS' h

theorem rotate_backups_snd (dest : Dest) (keep : Nat) (dry : Bool) :
    (rotate_backups dest keep dry).2
      = rotateRemoveList (List.insertionSort pyLe (backupNames dest)) keep := rfl

/-- A strict maximum of the snapshot-name list, occurring once, is never
selected for removal: rotation always keeps the newest snapshot. -/
theorem strictMax_not_in_removeList (B : List String) (x : String) (keep : Nat)
    (hmem : x ∈ B)
    (hmax : ∀ y ∈ B, y = x ∨ (pyLe y x ∧ y ≠ x))
    (hcount : B.count x = 1) :
    x ∉ rotateRemoveList (List.insertionSort pyLe B) keep := by
  intro hx
  have hperm : List.Perm (List.insertionSort pyLe B) B :=
    List.perm_insertionSort pyLe B
  have hsorted : List.Sorted pyLe (List.insertionSort pyLe B) :=
    List.sorted_insertionSort pyLe B
  have hmemS : x ∈ List.insertionSort pyLe B := hperm.mem_iff.mpr hmem
  have hmaxS : ∀ y ∈ List.insertionSort pyLe B, y = x ∨ (pyLe y x ∧ y ≠ x) :=
    fun y hy => hmax y (hperm.subset hy)
  have hcountS : (List.insertionSort pyLe B).count x = 1 := by
    rw [hperm.count_eq]; exact hcount
  obtain ⟨S', hSe, hxS'⟩ :=
    sorted_strictMax_ends (List.insertionSort pyLe B) hsorted x hmemS hmaxS hcountS
  unfold rotateRemoveList at hx
  by_cases h1 : (List.insertionSort pyLe B).length ≤ keep
  · rw [if_pos h1] at hx
    exact absurd hx (List.not_mem_nil x)
  · rw [if_neg h1] at hx
    by_cases h2 : keep = 0
    · rw [if_pos h2] at hx
      exact absurd hx (List.not_mem_nil x)
    · rw [if_neg h2] at hx
      have hlen : (List.insertionSort pyLe B).length = S'.length + 1 := by
        rw [hSe]; simp
      have htake : (List.insertionSort pyLe B).take
          ((List.insertionSort pyLe B).length - keep)
          = S'.take ((List.insertionSort pyLe B).length - keep) := by
        rw [hSe, List.take_append_eq_append_take]
        have hz : (S' ++ [x]).length - keep - S'.length = 0 := by
          simp only [List.length_append, List.length_singleton]
          omega
        rw [hSe] at hlen
        rw [hz]
        simp
      rw [htake] at hx
      exact hxS' (List.take_subset _ _ hx)

theorem mem_backupNames_of_getDir (dest : Dest) (name : String) (t : Tree)
    (h : getDir dest name = some t) (hsw : pyStartswith name "backup_" = true) :
    name ∈ backupNames dest := by
  unfold getDir at h
  cases hf : dest.dirs.find? (fun e => decide (e.1 = name)) with
  | none => rw [hf] at h; cases h
  | some e =>
    have hmem := List.mem_of_find?_eq_some hf
    have hpred := List.find?_some hf
    have he1 : e.1 = name := by simpa using hpred
    unfold backupNames
    rw [List.mem_filter]
    exact ⟨he1 ▸ List.mem_map.mpr ⟨e, hmem, rfl⟩, hsw⟩

theorem backupNames_rotate_subset (dest : Dest) (keep : Nat) (dry : Bool) :
    ∀ n ∈ backupNames (rotate_backups dest keep dry).1, n ∈ backupNames dest := by
  intro n hn
  unfold rotate_backups at hn
  simp only at hn
  cases dry with
  | true => simpa using hn
  | false =>
    simp only [Bool.false_eq_true, if_false] at hn
    unfold backupNames at hn ⊢
    rw [List.mem_filter] at hn ⊢
    obtain ⟨e, he, hee⟩ := List.mem_map.mp hn.1
    rw [List.mem_filter] at he
    exact ⟨hee ▸ List.mem_map.mpr ⟨e, he.1, rfl⟩, hn.2⟩

theorem pipeline_destAfter (source : Tree) (dest : Dest) (ts : String)
    (z : Bool) (keep : Nat) (d : Bool) :
    (pipeline source dest ts z keep d).destAfter
      = (rotate_backups
          (if z then
            (compress_backup (incremental_backup source dest ts d).destAfter
              ("backup_" ++ ts) d).2
          else (incremental_backup source dest ts d).destAfter) keep d).1 := rfl

theorem rotate_backups_fst_false (dest : Dest) (keep : Nat) :
    (rotate_backups dest keep false).1
      = { dirs := dest.dirs.filter
            (fun e => decide (e.1 ∉ (rotate_backups dest keep false).2)),
          zipFiles := dest.zipFiles.filter
            (fun e => decide (e.1 ∉ (rotate_backups dest keep false).2.map
              (fun n => n ++ ".zip"))) } := rfl

/-- C4: with `0 < keep < m` snapshots present, a non-dry rotation selects
exactly `m - keep` names, all of them `backup_*` directories of the
destination, each lexicographically strictly below every kept `backup_*`
name; the surviving directory entries are exactly those not selected,
`latest` is untouched, and the surviving `.zip` files are exactly those not
co-located with a removed snapshot. -/
theorem rotation_removes_oldest (dest : Dest) (keep : Nat)
    (hk : 0 < keep) (hm : keep < (backupNames dest).length) :
    (rotate_backups dest keep false).2.length
        = (backupNames dest).length - keep
      ∧ (∀ x ∈ (rotate_backups dest keep false).2, x ∈ backupNames dest)
      ∧ (∀ x ∈ (rotate_backups dest keep false).2,
          ∀ y ∈ backupNames dest, y ∉ (rotate_backups dest keep false).2 →
            pyLe x y ∧ x ≠ y)
      ∧ (∀ nm t, (nm, t) ∈ (rotate_backups dest keep false).1.dirs ↔
          ((nm, t) ∈ dest.dirs ∧ nm ∉ (rotate_backups dest keep false).2))
      ∧ getDir (rotate_backups dest keep false).1 "latest" = getDir dest "latest"
      ∧ (∀ nm zc, (nm, zc) ∈ (rotate_backups dest keep false).1.zipFiles ↔
          ((nm, zc) ∈ dest.zipFiles
            ∧ nm ∉ (rotate_backups dest keep false).2.map (fun s => s ++ ".zip"))) := by
  have hperm : List.Perm (List.insertionSort pyLe (backupNames dest))
      (backupNames dest) := List.perm_insertionSort pyLe (backupNames dest)
  have hlenS : (List.insertionSort pyLe (backupNames dest)).length
      = (backupNames dest).length := hperm.length_eq
  have h1 : ¬ ((List.insertionSort pyLe (backupNames dest)).length ≤ keep) := by
    omega
  have h2 : ¬ (keep = 0) := by omega
  have hrm : (rotate_backups dest keep false).2
      = (List.insertionSort pyLe (backupNames dest)).take
          ((List.insertionSort pyLe (backupNames dest)).length - keep) := by
    rw [rotate_backups_snd]
    unfold rotateRemoveList
    rw [if_neg h1, if_neg h2]
  refine ⟨?_, rotate_remove_subset dest keep false, ?_, ?_, ?_, ?_⟩
  · rw [hrm, List.length_take]
    omega
  · intro x hx y hy hyn
    have hyS : y ∈ List.insertionSort pyLe (backupNames dest) :=
      hperm.mem_iff.mpr hy
    rw [hrm] at hx hyn
    have hyd : y ∈ (List.insertionSort pyLe (backupNames dest)).drop
        ((List.insertionSort pyLe (backupNames dest)).length - keep) := by
      rcases List.mem_append.mp ((List.take_append_drop
          ((List.insertionSort pyLe (backupNames dest)).length - keep)
          (List.insertionSort pyLe (backupNames dest))) ▸ hyS) with h | h
      · exact absurd h hyn
      · exact h
    refine ⟨List.Sorted.rel_of_mem_take_of_mem_drop
        (List.sorted_insertionSort pyLe (backupNames dest)) hx hyd, ?_⟩
    intro hh
    exact hyn (hh ▸ hx)
  · intro nm t
    rw [rotate_backups_fst_false]
    simp only [List.mem_filter, decide_eq_true_eq]
  · exact getDir_rotate dest keep false "latest" (latest_not_in_remove dest keep false)
  · intro nm zc
    rw [rotate_backups_fst_false]
    simp only [List.mem_filter, decide_eq_true_eq]

theorem rotation_removes_oldest_witness :
    ((0 : Nat) < 1 ∧ 1 < (backupNames destRot).length)
      ∧ (rotate_backups destRot 1 false).2.length
          = (backupNames destRot).length - 1 :=
  ⟨⟨by decide, by decide⟩,
    (rotation_removes_oldest destRot 1 (by decide) (by decide)).1⟩

/-- C2: after a successful non-dry run whose snapshot name is fresh and
lexicographically newest, `latest` holds exactly the tree of the newest
`backup_*` directory (which is the snapshot just built), and the next run's
reported counts are a function of the source and of `latest` alone — the
sole reference consulted. -/
theorem latest_identical_to_newest_snapshot (source : Tree) (dest : Dest)
    (ts : String) (z : Bool) (keep : Nat)
    (hfresh : ("backup_" ++ ts) ∉ dest.dirs.map Prod.fst)
    (hmax : ∀ n ∈ backupNames dest, pyLe n ("backup_" ++ ts)) :
    getDir (pipeline source dest ts z keep false).destAfter "latest"
        = some (buildSnapshot source (getDir dest "latest"))
      ∧ getDir (pipeline source dest ts z keep false).destAfter
            ((pipeline source dest ts z keep false).backup_name)
          = some (buildSnapshot source (getDir dest "latest"))
      ∧ (pipeline source dest ts z keep false).backup_name
          ∈ backupNames (pipeline source dest ts z keep false).destAfter
      ∧ (∀ n ∈ backupNames (pipeline source dest ts z keep false).destAfter,
          pyLe n ((pipeline source dest ts z keep false).backup_name))
      ∧ (∀ src2 : Tree, ∀ ts2 : String, ∀ z2 d2 : Bool, ∀ k2 : Nat,
          (pipeline src2 (pipeline source dest ts z keep false).destAfter
              ts2 z2 k2 d2).copied
            = (copiedList
                (getDir (pipeline source dest ts z keep false).destAfter "latest")
                src2.files).length) := by
  obtain ⟨F, hF, hFn, hFsub⟩ := backupNames_after_incremental source dest ts hfresh
  have hbn2 : backupNames
      (if z then
        (compress_backup (incremental_backup source dest ts false).destAfter
          ("backup_" ++ ts) false).2
      else (incremental_backup source dest ts false).destAfter)
      = F ++ ["backup_" ++ ts] := by
    cases z with
    | true => rw [if_pos rfl, backupNames_compress, hF]
    | false => rw [if_neg (by simp), hF]
  have hgd2 : getDir
      (if z then
        (compress_backup (incremental_backup source dest ts false).destAfter
          ("backup_" ++ ts) false).2
      else (incremental_backup source dest ts false).destAfter)
      ("backup_" ++ ts) = some (buildSnapshot source (getDir dest "latest")) := by
    cases z with
    | true => rw [if_pos rfl, getDir_compress, getDir_incremental_new source dest ts hfresh]
    | false => rw [if_neg (by simp), getDir_incremental_new source dest ts hfresh]
  have hmax2 : ∀ y ∈ F ++ ["backup_" ++ ts],
      y = "backup_" ++ ts ∨ (pyLe y ("backup_" ++ ts) ∧ y ≠ "backup_" ++ ts) := by
    intro y hy
    rcases List.mem_append.mp hy with hyF | hyb
    · right
      have hyB := hFsub y hyF
      refine ⟨hmax y hyB, ?_⟩
      intro hh
      exact hfresh (hh ▸ backupNames_subset_names dest y hyB)
    · left; simpa using hyb
  have hcount2 : (F ++ ["backup_" ++ ts]).count ("backup_" ++ ts) = 1 := by
    rw [List.count_append, List.count_eq_zero.mpr hFn]
    simp
  have hnotrm : ("backup_" ++ ts) ∉ (rotate_backups
      (if z then
        (compress_backup (incremental_backup source dest ts false).destAfter
          ("backup_" ++ ts) false).2
      else (incremental_backup source dest ts false).destAfter) keep false).2 := by
    rw [rotate_backups_snd, hbn2]
    exact strictMax_not_in_removeList (F ++ ["backup_" ++ ts]) ("backup_" ++ ts)
      keep (by simp) hmax2 hcount2
  have hgd3 : getDir (pipeline source dest ts z keep false).destAfter
      ("backup_" ++ ts) = some (buildSnapshot source (getDir dest "latest")) := by
    rw [pipeline_destAfter, getDir_rotate _ _ _ _ hnotrm, hgd2]
  refine ⟨pipeline_latest source dest ts z keep, hgd3, ?_, ?_, ?_⟩
  · exact mem_backupNames_of_getDir _ _ _ hgd3 (startswith_backup ts)
  · intro n hn
    rw [pipeline_destAfter] at hn
    have hn2 := backupNames_rotate_subset _ keep false n hn
    rw [hbn2] at hn2
    rcases List.mem_append.mp hn2 with hnF | hnb
    · exact hmax n (hFsub n hnF)
    · rw [List.mem_singleton.mp hnb]
      exact pyLe_refl _
  · intro src2 ts2 z2 d2 k2
    exact pipeline_copied src2 _ ts2 z2 k2 d2

theorem latest_identical_to_newest_snapshot_witness :
    (("backup_t" : String) ∉ destOne.dirs.map Prod.fst
        ∧ ∀ n ∈ backupNames destOne, pyLe n "backup_t")
      ∧ getDir (pipeline srcEx destOne "t" false 5 false).destAfter
            ((pipeline srcEx destOne "t" false 5 false).backup_name)
          = some (buildSnapshot srcEx (getDir destOne "latest")) :=
  ⟨⟨by decide, by decide⟩,
    (latest_identical_to_newest_snapshot srcEx destOne "t" false 5
      (by decide) (by decide)).2.1⟩

/-- C10: after every non-dry run `latest` is a copy of the just-built
incremental snapshot: it mirrors all source directories, contains every file
the run copied, and has no file at the path of any file the run skipped as
unchanged — even though that file still exists in the source tree. -/
theorem latest_holds_only_copied_files (source : Tree) (dest : Dest)
    (ts : String) (z : Bool) (keep : Nat)
    (hnd : (source.files.map Prod.fst).Nodup) :
    getDir (pipeline source dest ts z keep false).destAfter "latest"
        = some (buildSnapshot source (getDir dest "latest"))
      ∧ (buildSnapshot source (getDir dest "latest")).dirs = source.dirs
      ∧ (∀ p f, (p, f) ∈ source.files →
          shouldCopy (getDir dest "latest") p f = true →
          (p, f) ∈ (buildSnapshot source (getDir dest "latest")).files)
      ∧ (∀ p f, (p, f) ∈ source.files →
          shouldCopy (getDir dest "latest") p f = false →
          lookupFile (buildSnapshot source (getDir dest "latest")) p = none) := by
  refine ⟨pipeline_latest source dest ts z keep, rfl, ?_, ?_⟩
  · intro p f hm hc
    exact List.mem_filter.mpr ⟨hm, hc⟩
  · intro p f hm hc
    exact lookup_buildSnapshot_none hnd hm hc

theorem latest_holds_only_copied_files_witness :
    ((srcEx.files.map Prod.fst).Nodup)
      ∧ lookupFile (buildSnapshot srcEx (getDir destEx "latest")) ["a"] = none
      ∧ (["b"], (⟨5, [2, 2]⟩ : File))
          ∈ (buildSnapshot srcEx (getDir destEx "latest")).files :=
  ⟨by decide,
    (latest_holds_only_copied_files srcEx destEx "t" false 5
      (by decide)).2.2.2 ["a"] ⟨5, [1]⟩ (by decide) (by decide),
    (latest_holds_only_copied_files srcEx destEx "t" false 5
      (by decide)).2.2.1 ["b"] ⟨5, [2, 2]⟩ (by decide) (by decide)⟩

/-- C3 fails as stated: with a destination whose `latest` stems from an
earlier partial run, the second of two back-to-back runs (distinct
timestamps, unchanged source) still copies a file, because the first run's
`latest` only holds the files that first run copied.  Here the second run
reports 1 copied and 1 skipped where the claim demands 0 copied and
2 skipped. -/
theorem idempotence_cex :
    (pipeline srcEx (pipeline srcEx destEx "t1" false 5 false).destAfter
        "t2" false 5 false).copied = 1
      ∧ (pipeline srcEx (pipeline srcEx destEx "t1" false 5 false).destAfter
          "t2" false 5 false).copied ≠ 0
      ∧ (pipeline srcEx (pipeline srcEx destEx "t1" false 5 false).destAfter
          "t2" false 5 false).skipped ≠ 2 := by
  refine ⟨?_, ?_, ?_⟩ <;> decide

/-- C3 amended: starting from a destination with no `latest` directory, two
back-to-back runs with an unchanged source and distinct timestamps yield, on
the second run, zero copies and a skip for every source file. -/
theorem idempotence_from_fresh_destination (source : Tree) (dest : Dest)
    (ts1 ts2 : String) (z1 z2 : Bool) (k1 k2 : Nat)
    (hnd : (source.files.map Prod.fst).Nodup)
    (hlat : getDir dest "latest" = none)
    (_hts : ts1 ≠ ts2) :
    (pipeline source (pipeline source dest ts1 z1 k1 false).destAfter
        ts2 z2 k2 false).copied = 0
      ∧ (pipeline source (pipeline source dest ts1 z1 k1 false).destAfter
          ts2 z2 k2 false).skipped = source.files.length := by
  have hd1 : getDir (pipeline source dest ts1 z1 k1 false).destAfter "latest"
      = some (buildSnapshot source none) := by
    rw [pipeline_latest, hlat]
  have hsnap : (buildSnapshot source none).files = source.files := by
    unfold buildSnapshot
    exact copiedList_none source.files
  have hall : ∀ e ∈ source.files,
      shouldCopy (some (buildSnapshot source none)) e.1 e.2 = false := by
    intro e he
    obtain ⟨p, f⟩ := e
    have hmem : (p, f) ∈ (buildSnapshot source none).files := by
      rw [hsnap]; exact he
    have hndsnap : ((buildSnapshot source none).files.map Prod.fst).Nodup := by
      rw [hsnap]; exact hnd
    show file_changed f (lookupFile (buildSnapshot source none) p) = false
    rw [lookupFile_eq_of_mem hndsnap hmem]
    show (decide (f.mtime > f.mtime) || decide (f.size ≠ f.size)) = false
    simp
  constructor
  · have hnil : List.filter
        (fun e => shouldCopy (some (buildSnapshot source none)) e.1 e.2)
        source.files = [] := by
      rw [List.filter_eq_nil_iff]
      intro e he
      rw [hall e he]
      simp
    rw [pipeline_copied, hd1]
    unfold copiedList
    rw [hnil]
    rfl
  · have hself : List.filter
        (fun e => !(shouldCopy (some (buildSnapshot source none)) e.1 e.2))
        source.files = source.files := by
      rw [List.filter_eq_self]
      intro e he
      rw [hall e he]
      rfl
    rw [pipeline_skipped, hd1]
    unfold skippedCountL
    rw [hself]

/-- C5 fails as stated: the copy loop has no exception handler, so when the
copy of `b` raises, the walk does not report-and-continue — it aborts with
that exception, leaving `c` unprocessed (an error result, not a completed
count). -/
theorem copy_failure_cex :
    copyWalk none exFails exFiles (0, 0) = Except.error ["b"] := rfl

/-- C5 amended: a per-file copy failure aborts the walk: whenever some file
the walk decides to copy fails, the loop terminates with the exception for a
failing file instead of completing the remaining files. -/
theorem copy_failure_aborts_walk (prev : Option Tree) (fails : RelPath → Bool)
    (files : List (RelPath × File)) (c s : Nat)
    (h : ∃ e ∈ files, shouldCopy prev e.1 e.2 = true ∧ fails e.1 = true) :
    ∃ p, copyWalk prev fails files (c, s) = Except.error p ∧ fails p = true := by
  induction files generalizing c s with
  | nil =>
    obtain ⟨e, he, _⟩ := h
    exact absurd he (List.not_mem_nil e)
  | cons a rest ih =>
    obtain ⟨e, he, hsc, hf⟩ := h
    by_cases hsca : shouldCopy prev a.1 a.2 = true
    · by_cases hfa : fails a.1 = true
      · exact ⟨a.1, by simp [copyWalk, hsca, hfa], hfa⟩
      · have he' : e ∈ rest := by
          rcases List.mem_cons.mp he with rfl | h'
          · exact absurd hf hfa
          · exact h'
        obtain ⟨p, hp, hfp⟩ := ih (c + 1) s ⟨e, he', hsc, hf⟩
        exact ⟨p, by simp [copyWalk, hsca, hfa, hp], hfp⟩
    · have he' : e ∈ rest := by
        rcases List.mem_cons.mp he with rfl | h'
        · exact absurd hsc hsca
        · exact h'
      obtain ⟨p, hp, hfp⟩ := ih c (s + 1) ⟨e, he', hsc, hf⟩
      exact ⟨p, by simp [copyWalk, hsca, hp], hfp⟩

theorem copy_failure_aborts_walk_witness :
    (∃ e ∈ exFiles, shouldCopy none e.1 e.2 = true ∧ exFails e.1 = true)
      ∧ ∃ p, copyWalk none exFails exFiles (0, 0) = Except.error p
          ∧ exFails p = true :=
  ⟨⟨(["b"], ⟨1, [2]⟩), by decide, by decide, by decide⟩,
    copy_failure_aborts_walk none exFails exFiles 0 0
      ⟨(["b"], ⟨1, [2]⟩), by decide, by decide, by decide⟩⟩

/-- C6 fails as stated: with one existing snapshot and `keep = 1`, the dry
run (which has not created the new snapshot directory) decides that no
rotation is needed, while the real run removes the oldest snapshot — the
reported rotation decisions differ between the two modes. -/
theorem dry_run_rotation_cex :
    (pipeline srcEx destOne "b" false 1 true).removed = []
      ∧ (pipeline srcEx destOne "b" false 1 false).removed = ["backup_a"]
      ∧ ¬ ((pipeline srcEx destOne "b" false 1 true).removed
            = (pipeline srcEx destOne "b" false 1 false).removed) := by
  refine ⟨?_, ?_, ?_⟩ <;> decide

/-- C6 amended: a dry run leaves the destination state unchanged and
reports exactly the copied/skipped counts of the non-dry run, but its
rotation decision is not guaranteed to match the non-dry run's: the dry run
evaluates rotation without the snapshot directory the real run creates. -/
theorem dry_run_frame_and_counts (source : Tree) (dest : Dest) (ts : String)
    (z : Bool) (keep : Nat) :
    (pipeline source dest ts z keep true).destAfter = dest
      ∧ (pipeline source dest ts z keep true).copied
          = (pipeline source dest ts z keep false).copied
      ∧ (pipeline source dest ts z keep true).skipped
          = (pipeline source dest ts z keep false).skipped := by
  refine ⟨?_, rfl, rfl⟩
  cases z with
  | true => rfl
  | false => rfl

/-- C7: the archive holds exactly one entry per snapshot file, named by the
file's path relative to the snapshot directory (no leading snapshot-name
component) and carrying exactly that file's bytes, and a non-dry
`compress_backup` stores it co-located under `<snapshot>.zip` — so
extraction reproduces all relative paths with identical content. -/
theorem archive_round_trip (snap : Tree) (dest : Dest) (bname : String)
    (hsnap : getDir dest bname = some snap) :
    (zipOf snap).length = snap.files.length
      ∧ (∀ p c, (p, c) ∈ zipOf snap ↔
          ∃ f, (p, f) ∈ snap.files ∧ f.content = c)
      ∧ (compress_backup dest bname false).2.zipFiles
          = dest.zipFiles ++ [(bname ++ ".zip", zipOf snap)] := by
  refine ⟨List.length_map _ _, ?_, ?_⟩
  · intro p c
    constructor
    · intro h
      obtain ⟨e, he, hee⟩ := List.mem_map.mp h
      obtain ⟨q, f⟩ := e
      rw [Prod.mk.injEq] at hee
      obtain ⟨rfl, rfl⟩ := hee
      exact ⟨f, he, rfl⟩
    · rintro ⟨f, hf, rfl⟩
      exact List.mem_map.mpr ⟨(p, f), hf, rfl⟩
  · have hz : (compress_backup dest bname false).2.zipFiles
        = dest.zipFiles
          ++ [(bname ++ ".zip", zipOf ((getDir dest bname).getD Tree.empty))] :=
      rfl
    rw [hz, hsnap]
    rfl

theorem archive_round_trip_witness :
    getDir destRot "backup_a" = some latEx
      ∧ (zipOf latEx).length = latEx.files.length
      ∧ (compress_backup destRot "backup_a" false).2.zipFiles
          = destRot.zipFiles ++ [("backup_a" ++ ".zip", zipOf latEx)] :=
  ⟨by decide,
    (archive_round_trip latEx destRot "backup_a" (by decide)).1,
    (archive_round_trip latEx destRot "backup_a" (by decide)).2.2⟩

/-- C8 fails as stated: `compress_backup` reaches no `return` with a value
on any path, so its return value is None in both modes — it never returns
the computed archive path. -/
theorem archiver_return_cex :
    (compress_backup destRot "backup_a" true).1 = none
      ∧ (compress_backup destRot "backup_a" false).1 = none
      ∧ ¬ ((compress_backup destRot "backup_a" true).1
            = some ("backup_a" ++ ".zip")) :=
  ⟨rfl, rfl, by decide⟩

/-- C8 amended: the Archiver computes the archive name by appending `.zip`
to the snapshot path (never replacing an existing extension) and uses it as
the archive's file name in a non-dry run; a dry run performs no I/O and
changes nothing; the function's return value, however, is None in both
modes, not the computed path. -/
theorem archiver_path_and_dry_run (dest : Dest) (bname : String) :
    compress_backup dest bname true = (none, dest)
      ∧ (compress_backup dest bname false).1 = none
      ∧ (compress_backup dest bname false).2.zipFiles
          = dest.zipFiles
            ++ [(bname ++ ".zip", zipOf ((getDir dest bname).getD Tree.empty))]
      ∧ (compress_backup dest bname false).2.dirs = dest.dirs :=
  ⟨rfl, rfl, rfl, rfl⟩

/-- C9: when the source tree does not exist, `main` logs the error and
returns before creating the destination root and before any pipeline step:
the world is unchanged and no snapshot, archive or rotation happens (no run
report exists). -/
theorem missing_source_aborts (w : World) (ts : String) (z : Bool)
    (keep : Nat) (d : Bool) :
    main_run none w ts z keep d = (w, none) := rfl

theorem idempotence_from_fresh_destination_witness :
    ((srcEx.files.map Prod.fst).Nodup ∧ getDir ⟨[], []⟩ "latest" = none
        ∧ "t1" ≠ "t2")
      ∧ (pipeline srcEx (pipeline srcEx ⟨[], []⟩ "t1" false 5 false).destAfter
          "t2" false 5 false).copied = 0
      ∧ (pipeline srcEx (pipeline srcEx ⟨[], []⟩ "t1" false 5 false).destAfter
          "t2" false 5 false).skipped = srcEx.files.length :=
  ⟨⟨by decide, by decide, by decide⟩,
    idempotence_from_fresh_destination srcEx ⟨[], []⟩ "t1" "t2" false false 5 5
      (by decide) (by decide) (by decide)⟩

end Floder
